import Mathlib

/-!
Verification of the fleet-calendar timeline layout engine, embedded from
src/constants.ts and src/components/Timeline.tsx (the two revisions in the
repository agree on all of the logic embedded here; numeric constants are
taken from the later revision of src/constants.ts).

Modelling conventions:
* JS strings are modelled as `List Char`.
* A timestamp field holds the result of `new Date(s).getTime()`, modelled as
  `Option Int` in whole minutes since the epoch (`none` models `NaN`, i.e. an
  unparsable date string).  The layout code reads time only through
  `getTime`, `getHours` and `getMinutes`, so a whole-minute, DST-free linear
  time model is exact for everything embedded here.
* Pixel arithmetic is modelled over `ℚ`; an `Option ℚ` result propagates JS
  `NaN` as `none` (in JS, `Math.max(NaN, 4)` is `NaN`).
* Display-only fields (plate, color, customer name, notes, ...) are not read
  by any of the layout logic and are omitted from the records.
-/

namespace FleetCal

abbrev Str := List Char

/-- The parsed value of a date string: `new Date(s).getTime()`, with `none`
for `NaN` (unparsable string). -/
abbrev Timestamp := Option Int

/-- EventType from src/types.ts. -/
inductive EventType where
  | BOOKING_ASSIGNED
  | BOOKING_UNASSIGNED
  | MAINTENANCE
  | STOP_SALE
  | BLOCK
deriving DecidableEq, Inhabited

/-- FleetEvent from src/types.ts (layout-relevant fields; the date strings
are represented by their parsed timestamps). -/
structure FleetEvent where
  id : Str
  type : EventType
  groupId : Str
  vehicleId : Option Str
  startDate : Timestamp
  endDate : Timestamp
  modelPreference : Option Str
  pickupLocation : Option Str
deriving DecidableEq, Inhabited

/-- Vehicle from src/types.ts (layout-relevant fields; the optional
`isVirtual` flag is modelled after the source's `!!v.isVirtual` coercion). -/
structure Vehicle where
  id : Str
  groupId : Str
  isVirtual : Bool
deriving DecidableEq, Inhabited

/-- CarGroup from src/types.ts. -/
structure CarGroup where
  id : Str
  name : Str
deriving DecidableEq, Inhabited

/-! Constants (later revision of src/constants.ts). -/

def CELL_WIDTH : ℚ := 140
def CELL_WIDTH_HOUR : ℚ := 60
def ROW_HEIGHT_STD : Nat := 50
def EVENT_HEIGHT : Nat := 40
def EVENT_GAP : Nat := 4

/-- JS `a < b` on two `getTime()` values; any comparison with `NaN` is
false. -/
def tsLt : Timestamp → Timestamp → Bool
  | some a, some b => decide (a < b)
  | _, _ => false

/-- JS `a >= b` on two date values (coerced to numbers); any comparison with
`NaN` is false. -/
def tsGe : Timestamp → Timestamp → Bool
  | some a, some b => decide (b ≤ a)
  | _, _ => false

/-- checkOverlap from src/constants.ts:
`s1 < e2 && s2 < e1` on the parsed timestamps. -/
def checkOverlap (start1 end1 start2 end2 : Timestamp) : Bool :=
  tsLt start1 end2 && tsLt start2 end1

/-! The lane packer (computeLanes in src/components/Timeline.tsx). -/

/-- The sort comparator
`(a, b) => new Date(a.startDate).getTime() - new Date(b.startDate).getTime()`
as a strict order: a `NaN` comparator result is treated as 0 (equal), so a
`NaN` key is never strictly smaller than anything. -/
def startLt (a b : FleetEvent) : Bool :=
  match a.startDate, b.startDate with
  | some x, some y => decide (x < y)
  | _, _ => false

/-- Stable insertion of an event into a list sorted by `startLt`: the event
goes after every element it does not strictly precede. -/
def insertByStart (e : FleetEvent) : List FleetEvent → List FleetEvent
  | [] => [e]
  | x :: xs => if startLt e x then e :: x :: xs else x :: insertByStart e xs

/-- `[...rowEvents].sort(comparator)`: JS `Array.prototype.sort` is a stable
sort of a copy of the array; modelled as a stable insertion sort. -/
def sortByStart (evs : List FleetEvent) : List FleetEvent :=
  evs.foldl (fun acc e => insertByStart e acc) []

/-- The per-lane acceptance test of the packer: the candidate does not
overlap the lane's last-placed event, and starts no earlier than that
event's end
(`!checkOverlap(...) && new Date(ev.startDate) >= new Date(lastEvent.endDate)`). -/
def fits (ev lastEvent : FleetEvent) : Bool :=
  !(checkOverlap ev.startDate ev.endDate lastEvent.startDate lastEvent.endDate) &&
    tsGe ev.startDate lastEvent.endDate

/-- A lane (`lanes[i]` in the source) is a nonempty array of events; it is
stored here in reverse placement order, so the first component is the
lane's last-placed event `lanes[i][lanes[i].length - 1]`. -/
abbrev Lane := FleetEvent × List FleetEvent

/-- The events of a lane, most recently placed first. -/
def laneList (l : Lane) : List FleetEvent := l.1 :: l.2

/-- The scan `for (let i = 0; i < lanes.length; i++)`: find the first lane
whose last event the candidate `fits` after, push the candidate there and
return its index; `none` if no lane accepts it. -/
def tryPlace (ev : FleetEvent) : List Lane → Option (List Lane × Nat)
  | [] => none
  | lane :: rest =>
    if fits ev lane.1 then
      some ((ev, lane.1 :: lane.2) :: rest, 0)
    else
      match tryPlace ev rest with
      | some (rest2, i) => some (lane :: rest2, i + 1)
      | none => none

/-- An event annotated with its assigned lane (`{ ...e, laneIndex: i }`). -/
structure EventWithLane where
  event : FleetEvent
  laneIndex : Nat
deriving DecidableEq, Inhabited

/-- One iteration of `sorted.forEach(ev => ...)`: place the event in the
first accepting lane, else open a new lane at the end
(`lanes.push([ev])`, lane index `lanes.length - 1` after the push). -/
def packStep (st : List Lane × List EventWithLane) (ev : FleetEvent) :
    List Lane × List EventWithLane :=
  match tryPlace ev st.1 with
  | some (lanes2, i) => (lanes2, st.2 ++ [⟨ev, i⟩])
  | none => (st.1 ++ [(ev, [])], st.2 ++ [⟨ev, st.1.length⟩])

/-- The whole greedy packing loop over the sorted events. -/
def packEvents (evs : List FleetEvent) : List Lane × List EventWithLane :=
  evs.foldl packStep ([], [])

/-- The value cached per row key in the rowLayouts map. -/
structure RowLayout where
  height : Nat
  eventsWithLanes : List EventWithLane
deriving DecidableEq, Inhabited

/-- computeLanes from src/components/Timeline.tsx.  Single-capacity rows map
every event to lane 0 at the standard height; unlimited-capacity rows sort a
copy by start time, pack greedily, and size the row as
`max(ROW_HEIGHT_STD, 12 + laneCount * (EVENT_HEIGHT + EVENT_GAP) + 12)`
with `laneCount = max(1, lanes.length)`. -/
def computeLanes (rowEvents : List FleetEvent) (isInfinite : Bool) : RowLayout :=
  if !isInfinite then
    { height := ROW_HEIGHT_STD
      eventsWithLanes := rowEvents.map (fun e => ⟨e, 0⟩) }
  else
    let packed := packEvents (sortByStart rowEvents)
    { height := max ROW_HEIGHT_STD (12 + (max 1 packed.1.length) * (EVENT_HEIGHT + EVENT_GAP) + 12)
      eventsWithLanes := packed.2 }

/-- The `Math.max(1, lanes.length)` lane count of an unlimited-capacity
row. -/
def laneCountTrue (rowEvents : List FleetEvent) : Nat :=
  max 1 (packEvents (sortByStart rowEvents)).1.length

/-! Row grouping (pendingQueuesByGroup and rowLayouts in
src/components/Timeline.tsx). -/

def UNKNOWN_MODEL : Str := "Unknown Model".data
def UNKNOWN_LOC : Str := "Unknown Loc".data

/-- `e.modelPreference || 'Unknown Model'`: JS `||` also replaces the empty
string (falsy). -/
def effPref (e : FleetEvent) : Str :=
  match e.modelPreference with
  | some s => if s = [] then UNKNOWN_MODEL else s
  | none => UNKNOWN_MODEL

/-- `e.pickupLocation || 'Unknown Loc'`. -/
def effLoc (e : FleetEvent) : Str :=
  match e.pickupLocation with
  | some s => if s = [] then UNKNOWN_LOC else s
  | none => UNKNOWN_LOC

/-- The composite queue key of a pending event:
`` `${pref|| 'Unknown Model'}|${loc|| 'Unknown Loc'}` ``. -/
def queueKey (e : FleetEvent) : Str := effPref e ++ '|' :: effLoc e

/-- The filter `e.groupId === g.id && e.type === EventType.BOOKING_UNASSIGNED`. -/
def isPendingOf (gid : Str) (e : FleetEvent) : Bool :=
  decide (e.groupId = gid ∧ e.type = EventType.BOOKING_UNASSIGNED)

def pendingEventsOf (evs : List FleetEvent) (gid : Str) : List FleetEvent :=
  evs.filter (isPendingOf gid)

/-- The distinct queue keys of a group in first-insertion order
(`Array.from(new Set(...))` over the pending events' keys). -/
def uniqueQueueKeys (evs : List FleetEvent) (gid : Str) : List Str :=
  (pendingEventsOf evs gid).foldl
    (fun acc e => if queueKey e ∈ acc then acc else acc ++ [queueKey e]) []

/-- JS `key.split('|')`. -/
def splitBar : Str → List Str
  | [] => [[]]
  | c :: rest =>
    match splitBar rest with
    | [] => [[]]
    | p :: ps => if c = '|' then [] :: p :: ps else (c :: p) :: ps

/-- `const [model, loc] = key.split('|')`: the first two split parts. -/
def keyModel (k : Str) : Str := (splitBar k).getD 0 []

def keyLoc (k : Str) : Str := (splitBar k).getD 1 []

/-- The queue-row filter: group, pending type, and both effective fields
equal to the split components of the row key. -/
def inQueueRow (gid : Str) (k : Str) (e : FleetEvent) : Bool :=
  decide (e.groupId = gid ∧ e.type = EventType.BOOKING_UNASSIGNED ∧
          effPref e = keyModel k ∧ effLoc e = keyLoc k)

def queueRowEvents (evs : List FleetEvent) (gid : Str) (k : Str) : List FleetEvent :=
  evs.filter (inQueueRow gid k)

/-- The layout stored under `queue_<gid>_<key>`: always packed with
unlimited capacity. -/
def queueRowLayout (evs : List FleetEvent) (gid : Str) (k : Str) : RowLayout :=
  computeLanes (queueRowEvents evs gid k) true

/-- The filter `e.vehicleId === v.id`. -/
def vehicleRowEvents (evs : List FleetEvent) (vid : Str) : List FleetEvent :=
  evs.filter (fun e => decide (e.vehicleId = some vid))

/-- The layout stored under a vehicle id:
`computeLanes(vEvents, !!v.isVirtual)`. -/
def vehicleRowLayout (evs : List FleetEvent) (v : Vehicle) : RowLayout :=
  computeLanes (vehicleRowEvents evs v.id) v.isVirtual

/-- `vehiclesByGroup[g.id]`: the vehicles of a group in input order. -/
def vehiclesOfGroup (vehicles : List Vehicle) (gid : Str) : List Vehicle :=
  vehicles.filter (fun v => decide (v.groupId = gid))

/-- A reference to one rendered row. -/
inductive RowRef where
  | queueRow (gid : Str) (key : Str)
  | vehicleRow (v : Vehicle)
deriving DecidableEq

/-- The row order the renderer emits inside one group block: queue rows,
then virtual-vehicle rows, then concrete-vehicle rows (identical in the
sidebar and in the grid body). -/
def renderedRows (vehicles : List Vehicle) (evs : List FleetEvent) (g : CarGroup) :
    List RowRef :=
  (uniqueQueueKeys evs g.id).map (RowRef.queueRow g.id) ++
  ((vehiclesOfGroup vehicles g.id).filter (fun v => v.isVirtual)).map RowRef.vehicleRow ++
  ((vehiclesOfGroup vehicles g.id).filter (fun v => !v.isVirtual)).map RowRef.vehicleRow

/-- Row-kind rank: 0 for queue rows, 1 for virtual-vehicle rows, 2 for
concrete-vehicle rows. -/
def rowRank : RowRef → Nat
  | RowRef.queueRow _ _ => 0
  | RowRef.vehicleRow v => if v.isVirtual then 1 else 2

/-! The day-scale coordinate mapper (getEventStyle in
src/components/Timeline.tsx). -/

/-- JS `date.getHours()` in the whole-minute model (`%` on Int is the
always-nonnegative Euclidean remainder, matching a clock reading also for
instants before the epoch). -/
def getHoursM (t : Int) : Int := (t % 1440).tdiv 60

/-- JS `date.getMinutes()` in the whole-minute model. -/
def getMinutesM (t : Int) : Int := t % 60

/-- `(getHours() + getMinutes() / 60) / 24`: the fractional time-of-day
offset used on the day scale. -/
def dayOffsetOf (t : Int) : ℚ :=
  ((getHoursM t : ℚ) + (getMinutesM t : ℚ) / 60) / 24

/-- date-fns `differenceInDays(b, a)`: the number of complete day periods,
truncated toward zero (DST-free model). -/
def differenceInDaysM (b a : Int) : Int := (b - a).tdiv 1440

/-- `durationDays = differenceInDays(eventEnd, eventStart) +
(endOffsetHours - startOffsetHours)`. -/
def durationDaysOf (s e : Int) : ℚ :=
  (differenceInDaysM e s : ℚ) + (dayOffsetOf e - dayOffsetOf s)

/-- JS `Math.max(a, b)` on two ordinary (non-NaN) numbers. -/
def maxQ (a b : ℚ) : ℚ := if a < b then b else a

/-- The day-scale bar width `Math.max(durationDays * cellWidth, 4)`;
an unparsable endpoint makes every JS operation involved (including
`Math.max`) return `NaN`, modelled as `none`. -/
def eventWidthDay : Timestamp → Timestamp → Option ℚ
  | some s, some e => some (maxQ (durationDaysOf s e * CELL_WIDTH) 4)
  | _, _ => none

/-! Basic facts about the timestamp comparisons. -/

/-- A well-formed event: both timestamps parse and the end is strictly
after the start. -/
def WF (e : FleetEvent) : Prop := tsLt e.startDate e.endDate = true

lemma tsLt_iff {x y : Timestamp} :
    tsLt x y = true ↔ ∃ a b : Int, x = some a ∧ y = some b ∧ a < b := by
  cases x <;> cases y <;> simp [tsLt]

lemma tsGe_iff {x y : Timestamp} :
    tsGe x y = true ↔ ∃ a b : Int, x = some a ∧ y = some b ∧ b ≤ a := by
  cases x <;> cases y <;> simp [tsGe]

lemma tsGe_none_left (y : Timestamp) : tsGe none y = false := by
  cases y <;> rfl

lemma checkOverlap_eq_false_of_none {s1 e1 s2 e2 : Timestamp}
    (h : s1 = none ∨ e1 = none ∨ s2 = none ∨ e2 = none) :
    checkOverlap s1 e1 s2 e2 = false := by
  cases s1 <;> cases e1 <;> cases s2 <;> cases e2 <;>
    first | rfl | simp_all [checkOverlap, tsLt]

lemma checkOverlap_eq_false_of_tsGe {a b : FleetEvent}
    (h : tsGe b.startDate a.endDate = true) :
    checkOverlap a.startDate a.endDate b.startDate b.endDate = false ∧
      checkOverlap b.startDate b.endDate a.startDate a.endDate = false := by
  rcases tsGe_iff.1 h with ⟨p, q, hb, ha, hle⟩
  cases hs : a.startDate <;> cases he : b.endDate <;>
    simp_all [checkOverlap, tsLt]

/-! Concrete fixtures used by witnesses and counterexamples. -/

def g1id : Str := "g1".data

/-- Day n at 12:00 in the whole-minute model (the mock data's addDays). -/
def dayTs (n : Nat) : Timestamp := some ((n : Int) * 1440 + 720)

/-- A pending booking for group g1, model "Toyota Yaris", location
"Narita", spanning day s to day e. -/
def mkPending (i s e : Nat) : FleetEvent :=
  { id := [Char.ofNat (48 + i)], type := EventType.BOOKING_UNASSIGNED,
    groupId := g1id, vehicleId := none,
    startDate := dayTs s, endDate := dayTs e,
    modelPreference := some "Toyota Yaris".data,
    pickupLocation := some "Narita".data }

/-- The three mutually overlapping pending bookings of scenario 1 of the
spec. -/
def pendThree : List FleetEvent := [mkPending 1 0 3, mkPending 2 1 4, mkPending 3 0 2]

/-- A well-formed assigned booking spanning minutes 0 to 10. -/
def goodEv : FleetEvent :=
  { id := "a".data, type := EventType.BOOKING_ASSIGNED, groupId := g1id,
    vehicleId := some "v1".data, startDate := some 0, endDate := some 10,
    modelPreference := none, pickupLocation := none }

/-- An event with a parseable start (minute 20) and an unparsable end. -/
def badEndEv : FleetEvent :=
  { id := "b".data, type := EventType.BOOKING_ASSIGNED, groupId := g1id,
    vehicleId := some "v1".data, startDate := some 20, endDate := none,
    modelPreference := none, pickupLocation := none }

/-- An event with an unparsable start and a parseable end. -/
def badStartEv : FleetEvent :=
  { id := "c".data, type := EventType.BOOKING_ASSIGNED, groupId := g1id,
    vehicleId := some "v1".data, startDate := none, endDate := some 30,
    modelPreference := none, pickupLocation := none }

/-- A pending booking whose model preference contains the queue-key
delimiter. -/
def qBad : FleetEvent :=
  { id := "x".data, type := EventType.BOOKING_UNASSIGNED, groupId := g1id,
    vehicleId := none, startDate := some 0, endDate := some 10,
    modelPreference := some "A|B".data, pickupLocation := some "C".data }

/-- A pending booking whose vehicleId matches no vehicle. -/
def qGhost : FleetEvent :=
  { id := "y".data, type := EventType.BOOKING_UNASSIGNED, groupId := g1id,
    vehicleId := some "ghost".data, startDate := some 0, endDate := some 10,
    modelPreference := some "M".data, pickupLocation := some "L".data }

/-- A concrete vehicle whose id differs from qGhost's dangling reference. -/
def vOther : Vehicle := { id := "v1".data, groupId := g1id, isVirtual := false }

/-! C2. -/

/-- C2: checkOverlap on parseable timestamps is exactly the strict
intersection test start1 < end2 AND start2 < end1, and two closed-open
intervals that merely touch at a boundary do not overlap. -/
theorem checkOverlap_iff_strict (s1 e1 s2 e2 t0 t1 t2 : Int)
    (h01 : t0 < t1) (h12 : t1 < t2) :
    (checkOverlap (some s1) (some e1) (some s2) (some e2) = true ↔ s1 < e2 ∧ s2 < e1) ∧
    checkOverlap (some t0) (some t1) (some t1) (some t2) = false := by
  constructor
  · simp [checkOverlap, tsLt]
  · simp [checkOverlap, tsLt]

/-- Witness for C2 at concrete timestamps. -/
theorem checkOverlap_iff_strict_witness :
    ((0 : Int) < 1 ∧ (1 : Int) < 2) ∧
    (checkOverlap (some 0) (some 5) (some 3) (some 9) = true ↔ (0 : Int) < 9 ∧ (3 : Int) < 5) ∧
    checkOverlap (some 0) (some 1) (some 1) (some 2) = false :=
  ⟨⟨by decide, by decide⟩, checkOverlap_iff_strict 0 5 3 9 0 1 2 (by decide) (by decide)⟩

/-! C6. -/

/-- C6: three pending events for the same group, model and location with
ranges day0-day3, day1-day4, day0-day2 form a single queue row that packs
into exactly 3 lanes, with row height 12 + 3 * (40 + 4) + 12 = 156. -/
theorem three_pending_three_lanes :
    uniqueQueueKeys pendThree g1id = [queueKey (mkPending 1 0 3)] ∧
    laneCountTrue (queueRowEvents pendThree g1id (queueKey (mkPending 1 0 3))) = 3 ∧
    (queueRowLayout pendThree g1id (queueKey (mkPending 1 0 3))).eventsWithLanes
      = [⟨mkPending 1 0 3, 0⟩, ⟨mkPending 3 0 2, 1⟩, ⟨mkPending 2 1 4, 2⟩] ∧
    (queueRowLayout pendThree g1id (queueKey (mkPending 1 0 3))).height
      = 12 + 3 * (EVENT_HEIGHT + EVENT_GAP) + 12 ∧
    EVENT_HEIGHT = 40 ∧ EVENT_GAP = 4 := by
  decide

/-! C4. -/

/-- C4 counterexample: a lane-packed row with exactly one lane has height
12 + 1 * (40 + 4) + 12 = 68, not the standard floor ROW_HEIGHT_STD = 50. -/
theorem row_height_floor_counterexample :
    laneCountTrue [mkPending 1 0 3] = 1 ∧
    (computeLanes [mkPending 1 0 3] true).height ≠ ROW_HEIGHT_STD := by
  decide

/-- C4 amended: a single-capacity row always has exactly the standard
height; a lane-packed row has height 12 + laneCount * (EVENT_HEIGHT +
EVENT_GAP) + 12, which is 68 already at one lane (the max with the 50 px
floor never fires) and grows linearly with the lane count. -/
theorem row_height_formula (evs : List FleetEvent) :
    (computeLanes evs false).height = ROW_HEIGHT_STD ∧
    (computeLanes evs true).height
      = 12 + laneCountTrue evs * (EVENT_HEIGHT + EVENT_GAP) + 12 ∧
    ROW_HEIGHT_STD ≤ (computeLanes evs true).height := by
  have hh : (computeLanes evs true).height
      = max ROW_HEIGHT_STD (12 + laneCountTrue evs * (EVENT_HEIGHT + EVENT_GAP) + 12) := rfl
  have h1 : 1 ≤ laneCountTrue evs := le_max_left 1 _
  refine ⟨rfl, ?_, ?_⟩ <;>
  · rw [hh]
    simp only [ROW_HEIGHT_STD, EVENT_HEIGHT, EVENT_GAP] at h1 ⊢
    omega

/-! C3: the day-scale width computation. -/

lemma dayOffsetOf_eq (t : Int) : dayOffsetOf t = ((t % 1440 : Int) : ℚ) / 1440 := by
  have h0 : (0 : Int) ≤ t % 1440 := Int.emod_nonneg t (by norm_num)
  have ht : getHoursM t = (t % 1440) / 60 := Int.tdiv_eq_ediv h0 (by norm_num)
  have hh : getHoursM t * 60 + getMinutesM t = t % 1440 := by
    rw [ht]; simp only [getMinutesM]; omega
  have hq : (getHoursM t : ℚ) * 60 + (getMinutesM t : ℚ) = ((t % 1440 : Int) : ℚ) := by
    exact_mod_cast congrArg (fun z : Int => (z : ℚ)) hh
  unfold dayOffsetOf
  field_simp
  linarith

lemma durationDaysOf_eq (s e : Int) (h1 : s ≤ e) (h2 : s % 1440 ≤ e % 1440) :
    durationDaysOf s e = ((e - s : Int) : ℚ) / 1440 := by
  have hd : differenceInDaysM e s = (e - s) / 1440 := Int.tdiv_eq_ediv (by omega) (by norm_num)
  have key : (e - s) / 1440 * 1440 + (e % 1440 - s % 1440) = e - s := by omega
  have keyq : (((e - s) / 1440 : Int) : ℚ) * 1440
      + ((((e % 1440 : Int)) : ℚ) - (((s % 1440 : Int)) : ℚ)) = ((e : ℚ) - (s : ℚ)) := by
    exact_mod_cast congrArg (fun z : Int => (z : ℚ)) key
  rw [durationDaysOf, hd, dayOffsetOf_eq, dayOffsetOf_eq]
  field_simp
  linarith

/-- C3 counterexample: an event from 14:00 (minute 840) to 10:00 the next
day (minute 2040) does not get the claimed duration 1 - 14/24 + 10/24 days;
differenceInDays truncates to 0 complete days, the time-of-day correction
is -4/24, and the width collapses to the 4 px floor. -/
theorem width_subday_counterexample :
    eventWidthDay (some 840) (some 2040) = some 4 ∧
    eventWidthDay (some 840) (some 2040)
      ≠ some (maxQ ((((1 : ℚ) - 14 / 24 + 10 / 24)) * CELL_WIDTH) 4) := by
  have h1 : differenceInDaysM 2040 840 = 0 := by decide
  have h2 : getHoursM 2040 = 10 := by decide
  have h3 : getMinutesM 2040 = 0 := by decide
  have h4 : getHoursM 840 = 14 := by decide
  have h5 : getMinutesM 840 = 0 := by decide
  constructor <;>
    norm_num [eventWidthDay, maxQ, durationDaysOf, dayOffsetOf, h1, h2, h3, h4, h5, CELL_WIDTH]

/-- C3 amended: the day-scale width is max(durationDays * CELL_WIDTH, 4)
where durationDays is the truncated count of complete days plus the
difference of the fractional times of day; when the end's time of day is
no earlier than the start's (and end is not before start) this equals the
exact fractional duration in days, so sub-day precision is preserved
exactly in that case (and only up to whole minutes in general). -/
theorem eventWidthDay_exact_when_tod_mono (s e : Int) (h1 : s ≤ e)
    (h2 : s % 1440 ≤ e % 1440) :
    eventWidthDay (some s) (some e)
      = some (maxQ (((e - s : Int) : ℚ) / 1440 * CELL_WIDTH) 4) := by
  simp only [eventWidthDay]
  rw [durationDaysOf_eq s e h1 h2]

/-- Witness for C3 at a concrete event: 14:00 on day 0 to 14:00 on day 1,
exactly one day, width one full cell. -/
theorem eventWidthDay_exact_when_tod_mono_witness :
    ((840 : Int) ≤ 2280 ∧ (840 : Int) % 1440 ≤ (2280 : Int) % 1440) ∧
    eventWidthDay (some 840) (some 2280)
      = some (maxQ ((((2280 : Int) - 840 : Int) : ℚ) / 1440 * CELL_WIDTH) 4) :=
  ⟨⟨by decide, by decide⟩, eventWidthDay_exact_when_tod_mono 840 2280 (by decide) (by decide)⟩


/-! Packer machinery part 1. -/

lemma insertByStart_perm (e : FleetEvent) (l : List FleetEvent) :
    (insertByStart e l).Perm (e :: l) := by
  induction l with
  | nil => simp [insertByStart]
  | cons x xs ih =>
    simp only [insertByStart]
    split
    · exact List.Perm.refl _
    · exact (ih.cons x).trans (List.Perm.swap e x xs)

lemma sortFold_perm : ∀ (evs acc : List FleetEvent),
    (evs.foldl (fun acc e => insertByStart e acc) acc).Perm (acc ++ evs) := by
  intro evs
  induction evs with
  | nil => simp
  | cons e evs ih =>
    intro acc
    simp only [List.foldl_cons]
    refine (ih (insertByStart e acc)).trans ?_
    refine (List.Perm.append_right evs (insertByStart_perm e acc)).trans ?_
    exact List.perm_middle.symm

lemma sortByStart_perm (evs : List FleetEvent) : (sortByStart evs).Perm evs := by
  simpa using sortFold_perm evs []

lemma mem_sortByStart {e : FleetEvent} {evs : List FleetEvent} :
    e ∈ sortByStart evs ↔ e ∈ evs :=
  (sortByStart_perm evs).mem_iff

lemma packStep_out_map (st : List Lane × List EventWithLane) (ev : FleetEvent) :
    ((packStep st ev).2).map (fun x => x.event) = st.2.map (fun x => x.event) ++ [ev] := by
  unfold packStep
  cases htp : tryPlace ev st.1 with
  | none => simp
  | some p => simp

lemma packFold_out_map : ∀ (evs : List FleetEvent) (st : List Lane × List EventWithLane),
    ((evs.foldl packStep st).2).map (fun x => x.event)
      = st.2.map (fun x => x.event) ++ evs := by
  intro evs
  induction evs with
  | nil => simp
  | cons e evs ih =>
    intro st
    simp only [List.foldl_cons]
    rw [ih, packStep_out_map]
    simp

lemma tryPlace_eq (ev : FleetEvent) :
    ∀ (lanes lanes2 : List Lane) (i : Nat), tryPlace ev lanes = some (lanes2, i) →
      ∃ pre lane post, lanes = pre ++ lane :: post ∧
        lanes2 = pre ++ ((ev, laneList lane)) :: post ∧
        i = pre.length ∧ fits ev lane.1 = true := by
  intro lanes
  induction lanes with
  | nil => intro lanes2 i h; simp [tryPlace] at h
  | cons lane rest ih =>
    intro lanes2 i h
    by_cases hf : fits ev lane.1 = true
    · rw [tryPlace, if_pos hf] at h
      obtain ⟨h1, h2⟩ := Prod.mk.injEq .. ▸ Option.some.inj h
      exact ⟨[], lane, rest, rfl, by simp [← h1, laneList], by simp [← h2], hf⟩
    · rw [tryPlace, if_neg hf] at h
      cases htp : tryPlace ev rest with
      | none => rw [htp] at h; simp at h
      | some p =>
        obtain ⟨rest2, i2⟩ := p
        rw [htp] at h
        obtain ⟨h1, h2⟩ := Prod.mk.injEq .. ▸ Option.some.inj h
        obtain ⟨pre, lane2, post, hl, hl2, hi, hfit⟩ := ih rest2 i2 htp
        refine ⟨lane :: pre, lane2, post, by simp [hl], by simp [← h1, hl2], by simp [← h2, hi], hfit⟩

def OutBound (st : List Lane × List EventWithLane) : Prop :=
  ∀ x ∈ st.2, x.laneIndex < st.1.length

lemma packStep_bound {st : List Lane × List EventWithLane} (h : OutBound st)
    (ev : FleetEvent) : OutBound (packStep st ev) := by
  unfold OutBound packStep
  cases htp : tryPlace ev st.1 with
  | none =>
    intro x hx
    simp only [List.length_append, List.length_cons, List.length_nil]
    rcases List.mem_append.1 hx with hx | hx
    · exact Nat.lt_succ_of_lt (h x hx)
    · simp at hx; subst hx; simp
  | some p =>
    obtain ⟨lanes2, i⟩ := p
    obtain ⟨pre, lane, post, hl, hl2, hi, hfit⟩ := tryPlace_eq ev st.1 lanes2 i htp
    intro x hx
    simp only
    have hlen : lanes2.length = st.1.length := by simp [hl, hl2]
    rcases List.mem_append.1 hx with hx | hx
    · rw [hlen]; exact h x hx
    · simp at hx; subst hx
      simp only [hl2, hi, List.length_append, List.length_cons]
      omega

lemma fits_eq_false_of_badStart {ev : FleetEvent} (h : ev.startDate = none)
    (l : FleetEvent) : fits ev l = false := by
  simp only [fits, h, tsGe_none_left, Bool.and_false]

lemma tryPlace_badStart {ev : FleetEvent} (h : ev.startDate = none) :
    ∀ lanes, tryPlace ev lanes = none := by
  intro lanes
  induction lanes with
  | nil => rfl
  | cons lane rest ih => simp [tryPlace, fits_eq_false_of_badStart h, ih]

def FreshBad (st : List Lane × List EventWithLane) : Prop :=
  List.Pairwise (fun x y => y.event.startDate = none → x.laneIndex ≠ y.laneIndex) st.2

lemma packStep_freshBad {st : List Lane × List EventWithLane} (hb : OutBound st)
    (hf : FreshBad st) (ev : FleetEvent) : FreshBad (packStep st ev) := by
  unfold FreshBad packStep
  cases htp : tryPlace ev st.1 with
  | none =>
    rw [List.pairwise_append]
    refine ⟨hf, by simp, ?_⟩
    intro x hx y hy
    simp at hy; subst hy
    intro _
    exact Nat.ne_of_lt (hb x hx)
  | some p =>
    obtain ⟨lanes2, i⟩ := p
    rw [List.pairwise_append]
    refine ⟨hf, by simp, ?_⟩
    intro x hx y hy
    simp at hy; subst hy
    intro hbad
    rw [tryPlace_badStart hbad st.1] at htp
    simp at htp

lemma packEvents_bound_freshBad (evs : List FleetEvent) :
    OutBound (packEvents evs) ∧ FreshBad (packEvents evs) := by
  unfold packEvents
  suffices h : ∀ (l : List FleetEvent) (st), OutBound st → FreshBad st →
      OutBound (l.foldl packStep st) ∧ FreshBad (l.foldl packStep st) by
    exact h evs ([], []) (by intro x hx; simp at hx) (by simp [FreshBad])
  intro l
  induction l with
  | nil => intro st h1 h2; exact ⟨h1, h2⟩
  | cons e l ih =>
    intro st h1 h2
    exact ih (packStep st e) (packStep_bound h1 e) (packStep_freshBad h1 h2 e)


/-! Packer machinery part 2: the per-lane chain invariant. -/

/-- In a stored lane (most recent first) each event starts no earlier than
the end of the event below it. -/
def laneRel (x y : FleetEvent) : Prop := tsGe x.startDate y.endDate = true

/-- The stored events of lane k, or [] past the end. -/
def laneListD (lanes : List Lane) (k : Nat) : List FleetEvent :=
  (lanes.map laneList).getD k []

/-- Output entries in the same lane are ordered: the later entry starts no
earlier than the earlier entry ends. -/
def packedOrdered (a b : EventWithLane) : Prop :=
  a.laneIndex = b.laneIndex → tsGe b.event.startDate a.event.endDate = true

def InvB (st : List Lane × List EventWithLane) : Prop :=
  OutBound st ∧
  (∀ l ∈ st.1, List.Chain' laneRel (laneList l)) ∧
  (∀ l ∈ st.1, ∀ e ∈ laneList l, WF e) ∧
  (∀ k, ((st.2.filter (fun x => x.laneIndex == k)).map (fun x => x.event))
      = (laneListD st.1 k).reverse) ∧
  List.Pairwise packedOrdered st.2

lemma tsGe_all_of_chain (ev : FleetEvent) :
    ∀ (l : List FleetEvent), List.Chain' laneRel l → (∀ e ∈ l, WF e) →
      (∀ a, l.head? = some a → tsGe ev.startDate a.endDate = true) →
      ∀ y ∈ l, tsGe ev.startDate y.endDate = true := by
  intro l
  induction l with
  | nil => intro _ _ _ y hy; simp at hy
  | cons a rest ih =>
    intro hchain hwf hhead y hy
    have ha : tsGe ev.startDate a.endDate = true := hhead a rfl
    rcases List.mem_cons.1 hy with rfl | hy
    · exact ha
    · cases rest with
      | nil => simp at hy
      | cons b rest2 =>
        have hab : laneRel a b := (List.chain'_cons.1 hchain).1
        have hchain2 : List.Chain' laneRel (b :: rest2) := (List.chain'_cons.1 hchain).2
        have hwf2 : ∀ e ∈ b :: rest2, WF e := fun e he => hwf e (List.mem_cons_of_mem a he)
        refine ih hchain2 hwf2 ?_ y hy
        intro c hc
        rw [List.head?_cons] at hc
        obtain rfl := Option.some.inj hc
        rcases tsGe_iff.1 ha with ⟨p, q, hevs, hae, hqp⟩
        have hwfa := hwf a (List.mem_cons_self a (b :: rest2))
        rcases tsLt_iff.1 hwfa with ⟨u, q2, has, hae2, huq⟩
        rw [hae] at hae2
        obtain rfl := Option.some.inj hae2
        rcases tsGe_iff.1 hab with ⟨u2, w, has2, hbe, hwu⟩
        rw [has] at has2
        obtain rfl := Option.some.inj has2
        refine tsGe_iff.2 ⟨p, w, hevs, hbe, by omega⟩

lemma fits_tsGe {ev lastEvent : FleetEvent} (h : fits ev lastEvent = true) :
    tsGe ev.startDate lastEvent.endDate = true :=
  (Bool.and_eq_true .. ▸ h).2

lemma packStep_eq_none {st : List Lane × List EventWithLane} {ev : FleetEvent}
    (h : tryPlace ev st.1 = none) :
    packStep st ev = (st.1 ++ [(ev, [])], st.2 ++ [⟨ev, st.1.length⟩]) := by
  unfold packStep; rw [h]

lemma packStep_eq_some {st : List Lane × List EventWithLane} {ev : FleetEvent}
    {lanes2 : List Lane} {i : Nat} (h : tryPlace ev st.1 = some (lanes2, i)) :
    packStep st ev = (lanes2, st.2 ++ [⟨ev, i⟩]) := by
  unfold packStep; rw [h]

lemma packStep_invB {st : List Lane × List EventWithLane} (hinv : InvB st)
    {ev : FleetEvent} (hwf : WF ev) : InvB (packStep st ev) := by
  obtain ⟨hbound, hchains, hwfl, hassoc, hpairs⟩ := hinv
  have hbound2 := packStep_bound hbound ev
  cases htp : tryPlace ev st.1 with
  | none =>
    rw [packStep_eq_none htp] at hbound2 ⊢
    refine ⟨hbound2, ?_, ?_, ?_, ?_⟩
    · intro l hl
      rcases List.mem_append.1 hl with hl | hl
      · exact hchains l hl
      · simp only [List.mem_singleton] at hl; subst hl
        exact List.chain'_singleton ev
    · intro l hl
      rcases List.mem_append.1 hl with hl | hl
      · exact hwfl l hl
      · simp only [List.mem_singleton] at hl; subst hl
        intro e he
        simp only [laneList, List.mem_singleton] at he; subst he
        exact hwf
    · intro k
      simp only [List.filter_append, List.map_append]
      by_cases hk : k = st.1.length
      · subst hk
        have h0 : laneListD st.1 st.1.length = [] :=
          List.getD_eq_default _ _ (by simp)
        have h1 := hassoc st.1.length
        rw [h0, List.reverse_nil] at h1
        rw [List.map_eq_nil_iff.1 h1]
        have h3 : laneListD (st.1 ++ [(ev, [])]) st.1.length = [ev] := by
          unfold laneListD
          rw [List.map_append, List.getD_append_right _ _ _ _ (by simp)]
          simp [laneList]
        rw [h3]
        simp
      · have h4 : List.filter (fun x => x.laneIndex == k)
            [(⟨ev, st.1.length⟩ : EventWithLane)] = [] := by
          simp only [List.filter]
          rw [show (st.1.length == k) = false from beq_eq_false_iff_ne.2 (Ne.symm hk)]
        rw [h4]
        have h5 : laneListD (st.1 ++ [(ev, [])]) k = laneListD st.1 k := by
          unfold laneListD
          rw [List.map_append]
          by_cases hlt : k < st.1.length
          · rw [List.getD_append _ _ _ _ (by simpa using hlt)]
          · rw [List.getD_append_right _ _ _ _ (by simp; omega),
              List.getD_eq_default _ _ (by simp; omega),
              List.getD_eq_default _ _ (by simp; omega)]
        rw [h5]
        simpa using hassoc k
    · rw [List.pairwise_append]
      refine ⟨hpairs, by simp, ?_⟩
      intro x hx y hy
      simp only [List.mem_singleton] at hy; subst hy
      intro hixy
      exact absurd hixy (Nat.ne_of_lt (hbound x hx))
  | some p =>
    obtain ⟨lanes2, i⟩ := p
    rw [packStep_eq_some htp] at hbound2 ⊢
    obtain ⟨pre, lane, post, hl, hl2, hi, hfit⟩ := tryPlace_eq ev st.1 lanes2 i htp
    have hlanemem : lane ∈ st.1 := by
      rw [hl]; exact List.mem_append_right _ (List.mem_cons_self _ _)
    have hlli : laneListD st.1 i = laneList lane := by
      unfold laneListD
      rw [hl, hi, List.map_append, List.getD_append_right _ _ _ _ (by simp)]
      simp
    refine ⟨hbound2, ?_, ?_, ?_, ?_⟩
    · intro l hlm
      rw [hl2] at hlm
      rcases List.mem_append.1 hlm with hlm | hlm
      · exact hchains l (by rw [hl]; exact List.mem_append_left _ hlm)
      · rcases List.mem_cons.1 hlm with rfl | hlm
        · show List.Chain' laneRel (ev :: lane.1 :: lane.2)
          exact List.chain'_cons.2 ⟨fits_tsGe hfit, hchains lane hlanemem⟩
        · exact hchains l (by
            rw [hl]; exact List.mem_append_right _ (List.mem_cons_of_mem _ hlm))
    · intro l hlm
      rw [hl2] at hlm
      rcases List.mem_append.1 hlm with hlm | hlm
      · exact hwfl l (by rw [hl]; exact List.mem_append_left _ hlm)
      · rcases List.mem_cons.1 hlm with rfl | hlm
        · intro e he
          rcases List.mem_cons.1 he with rfl | he
          · exact hwf
          · exact hwfl lane hlanemem e he
        · exact hwfl l (by
            rw [hl]; exact List.mem_append_right _ (List.mem_cons_of_mem _ hlm))
    · intro k
      simp only [List.filter_append, List.map_append]
      by_cases hk : k = i
      · subst hk
        have h6 : laneListD lanes2 k = ev :: laneList lane := by
          unfold laneListD
          rw [hl2, hi, List.map_append, List.getD_append_right _ _ _ _ (by simp)]
          simp [laneList]
        have h7 : List.map (fun x => x.event)
            (List.filter (fun x => x.laneIndex == k) [(⟨ev, k⟩ : EventWithLane)]) = [ev] := by
          simp
        rw [h7, hassoc k, hlli, h6, List.reverse_cons]
      · have h4 : List.filter (fun x => x.laneIndex == k)
            [(⟨ev, i⟩ : EventWithLane)] = [] := by
          simp only [List.filter]
          rw [show (i == k) = false from beq_eq_false_iff_ne.2 (Ne.symm hk)]
        rw [h4]
        have h5 : laneListD lanes2 k = laneListD st.1 k := by
          unfold laneListD
          rw [hl, hl2, List.map_append, List.map_append]
          by_cases hlt : k < pre.length
          · rw [List.getD_append _ _ _ _ (by simpa using hlt),
              List.getD_append _ _ _ _ (by simpa using hlt)]
          · rw [List.getD_append_right _ _ _ _ (by simp; omega),
              List.getD_append_right _ _ _ _ (by simp; omega)]
            obtain ⟨m, hm⟩ : ∃ m, k - (pre.map laneList).length = m + 1 := by
              refine ⟨k - (pre.map laneList).length - 1, ?_⟩
              simp only [List.length_map]
              omega
            rw [hm]
            rfl
        rw [h5]
        simpa using hassoc k
    · rw [List.pairwise_append]
      refine ⟨hpairs, by simp, ?_⟩
      intro x hx y hy
      simp only [List.mem_singleton] at hy; subst hy
      intro hix
      have hxf : x ∈ List.filter (fun z => z.laneIndex == i) st.2 :=
        List.mem_filter.2 ⟨hx, by simp [hix]⟩
      have hxm : x.event ∈ (laneListD st.1 i).reverse := by
        rw [← hassoc i]
        exact List.mem_map_of_mem _ hxf
      rw [List.mem_reverse, hlli] at hxm
      refine tsGe_all_of_chain ev (laneList lane) (hchains lane hlanemem)
        (hwfl lane hlanemem) ?_ x.event hxm
      intro a ha
      rw [show laneList lane = lane.1 :: lane.2 from rfl, List.head?_cons] at ha
      obtain rfl := Option.some.inj ha
      exact fits_tsGe hfit


instance (e : FleetEvent) : Decidable (WF e) :=
  inferInstanceAs (Decidable (tsLt e.startDate e.endDate = true))

lemma packEvents_invB (evs : List FleetEvent) (hwf : ∀ e ∈ evs, WF e) :
    InvB (packEvents evs) := by
  unfold packEvents
  suffices h : ∀ (l : List FleetEvent) (st), (∀ e ∈ l, WF e) → InvB st →
      InvB (l.foldl packStep st) by
    refine h evs ([], []) hwf ⟨?_, ?_, ?_, ?_, ?_⟩
    · intro x hx; simp at hx
    · intro l hl; simp at hl
    · intro l hl; simp at hl
    · intro k; simp [laneListD]
    · simp
  intro l
  induction l with
  | nil => intro st _ h; exact h
  | cons e l ih =>
    intro st hw h
    simp only [List.foldl_cons]
    exact ih (packStep st e) (fun x hx => hw x (List.mem_cons_of_mem e hx))
      (packStep_invB h (hw e (List.mem_cons_self e l)))

/-- C1: lane packing is correct: for well-formed events (parseable
timestamps, end strictly after start), any two output entries sharing a
laneIndex are time-ordered (the later entry in output order starts no
earlier than the earlier one ends) and do not overlap per checkOverlap, in
either argument order. -/
theorem lane_packing_correct (rowEvents : List FleetEvent)
    (hwf : ∀ e ∈ rowEvents, WF e) :
    List.Pairwise
      (fun a b => a.laneIndex = b.laneIndex →
        tsGe b.event.startDate a.event.endDate = true ∧
        checkOverlap a.event.startDate a.event.endDate
          b.event.startDate b.event.endDate = false ∧
        checkOverlap b.event.startDate b.event.endDate
          a.event.startDate a.event.endDate = false)
      (computeLanes rowEvents true).eventsWithLanes := by
  have hwf2 : ∀ e ∈ sortByStart rowEvents, WF e := fun e he =>
    hwf e (mem_sortByStart.1 he)
  have hinv := packEvents_invB (sortByStart rowEvents) hwf2
  have hp : List.Pairwise packedOrdered (packEvents (sortByStart rowEvents)).2 :=
    hinv.2.2.2.2
  show List.Pairwise _ (packEvents (sortByStart rowEvents)).2
  refine hp.imp ?_
  intro a b hab
  intro hidx
  have hg := hab hidx
  exact ⟨hg, (checkOverlap_eq_false_of_tsGe hg).1, (checkOverlap_eq_false_of_tsGe hg).2⟩

/-- Witness for C1 on the three-pending fixture. -/
theorem lane_packing_correct_witness :
    (∀ e ∈ pendThree, WF e) ∧
    List.Pairwise
      (fun a b => a.laneIndex = b.laneIndex →
        tsGe b.event.startDate a.event.endDate = true ∧
        checkOverlap a.event.startDate a.event.endDate
          b.event.startDate b.event.endDate = false ∧
        checkOverlap b.event.startDate b.event.endDate
          a.event.startDate a.event.endDate = false)
      (computeLanes pendThree true).eventsWithLanes :=
  ⟨by decide, lane_packing_correct pendThree (by decide)⟩

/-- C10: computeLanes returns exactly one laneIndex-annotated copy of each
input event (a permutation; nothing dropped or duplicated), and every
assigned laneIndex is below the row lane count (1 for a single-capacity
row). The input list itself is untouched: the packer sorts a copy (the
embedding is a pure function of the input list). -/
theorem computeLanes_complete (evs : List FleetEvent) (isInfinite : Bool) :
    ((computeLanes evs isInfinite).eventsWithLanes.map (fun x => x.event)).Perm evs ∧
    ∀ x ∈ (computeLanes evs isInfinite).eventsWithLanes,
      x.laneIndex < (if isInfinite then laneCountTrue evs else 1) := by
  cases isInfinite with
  | false =>
    constructor
    · show ((evs.map (fun e => (⟨e, 0⟩ : EventWithLane))).map (fun x => x.event)).Perm evs
      rw [List.map_map]
      have hcomp : ((fun (x : EventWithLane) => x.event)
          ∘ (fun e => (⟨e, 0⟩ : EventWithLane))) = id := rfl
      rw [hcomp, List.map_id]
    · intro x hx
      show x.laneIndex < 1
      have hx2 : x ∈ evs.map (fun e => (⟨e, 0⟩ : EventWithLane)) := hx
      obtain ⟨e, he, rfl⟩ := List.mem_map.1 hx2
      simp
  | true =>
    constructor
    · show (((packEvents (sortByStart evs)).2).map (fun x => x.event)).Perm evs
      rw [show packEvents (sortByStart evs)
          = (sortByStart evs).foldl packStep ([], []) from rfl, packFold_out_map]
      simpa using sortByStart_perm evs
    · intro x hx
      have hb := (packEvents_bound_freshBad (sortByStart evs)).1 x hx
      show x.laneIndex < laneCountTrue evs
      exact lt_of_lt_of_le hb (le_max_right 1 _)

/-- Witness for C10 on the three-pending fixture. -/
theorem computeLanes_complete_witness :
    ((computeLanes pendThree true).eventsWithLanes.map (fun x => x.event)).Perm pendThree ∧
    (⟨mkPending 1 0 3, 0⟩ : EventWithLane).laneIndex < laneCountTrue pendThree :=
  ⟨(computeLanes_complete pendThree true).1, by
    have h := (computeLanes_complete pendThree true).2 ⟨mkPending 1 0 3, 0⟩ (by decide)
    simpa using h⟩

/-- C7 amended: an unparsable endpoint makes checkOverlap false against
anything; the packer never appends an event with an unparsable START to an
existing lane (it always opens a fresh lane, whose index it shares with no
earlier entry); and the width computation propagates NaN (the bar width is
NaN, the 4 px floor is not applied, and no exception occurs anywhere). -/
theorem unparsable_degradation (s1 e1 s2 e2 w : Timestamp) (evs : List FleetEvent)
    (hnan : s1 = none ∨ e1 = none ∨ s2 = none ∨ e2 = none) :
    checkOverlap s1 e1 s2 e2 = false ∧
    List.Pairwise (fun x y => y.event.startDate = none → x.laneIndex ≠ y.laneIndex)
      (computeLanes evs true).eventsWithLanes ∧
    eventWidthDay none w = none ∧ eventWidthDay w none = none := by
  refine ⟨checkOverlap_eq_false_of_none hnan, ?_, ?_, ?_⟩
  · show List.Pairwise _ (packEvents (sortByStart evs)).2
    exact (packEvents_bound_freshBad (sortByStart evs)).2
  · cases w <;> rfl
  · cases w <;> rfl

/-- Witness for C7 at concrete inputs. -/
theorem unparsable_degradation_witness :
    checkOverlap none (some 0) (some 1) (some 2) = false ∧
    List.Pairwise (fun x y => y.event.startDate = none → x.laneIndex ≠ y.laneIndex)
      (computeLanes [goodEv, badStartEv] true).eventsWithLanes ∧
    eventWidthDay none (some 5) = none ∧ eventWidthDay (some 5) none = none :=
  unparsable_degradation none (some 0) (some 1) (some 2) (some 5) [goodEv, badStartEv]
    (Or.inl rfl)

/-- C7 counterexample: an event with a parseable start but unparsable end
is NOT placed in its own lane: after a well-formed event ending at minute
10, the packer appends the broken event (start minute 20, NaN end) to lane
0, because the NaN end makes checkOverlap false and the start comparison
20 >= 10 true. -/
theorem unparsable_end_shares_lane :
    badEndEv.endDate = none ∧
    (computeLanes [goodEv, badEndEv] true).eventsWithLanes
      = [⟨goodEv, 0⟩, ⟨badEndEv, 0⟩] := by
  decide


/-! C5: queue bucketing. -/

/-- A string free of the queue-key delimiter. -/
def noBar (s : Str) : Prop := '|' ∉ s

instance (s : Str) : Decidable (noBar s) :=
  inferInstanceAs (Decidable ('|' ∉ s))

lemma splitBar_ne_nil (s : Str) : splitBar s ≠ [] := by
  cases s with
  | nil => simp [splitBar]
  | cons c rest =>
    rw [splitBar]
    cases splitBar rest with
    | nil => simp
    | cons p ps =>
      by_cases hc : c = '|' <;> simp [hc]

lemma splitBar_noBar {s : Str} (h : noBar s) : splitBar s = [s] := by
  induction s with
  | nil => rfl
  | cons c rest ih =>
    have hc : c ≠ '|' := by
      intro hceq
      exact h (by rw [hceq]; exact List.mem_cons_self _ _)
    have hr : noBar rest := fun hm => h (List.mem_cons_of_mem c hm)
    rw [splitBar, ih hr]
    simp [hc]

lemma splitBar_append {a : Str} (b : Str) (ha : noBar a) :
    splitBar (a ++ '|' :: b) = a :: splitBar b := by
  induction a with
  | nil =>
    rw [List.nil_append, splitBar]
    cases hsb : splitBar b with
    | nil => exact absurd hsb (splitBar_ne_nil b)
    | cons p ps => simp
  | cons c a ih =>
    have hc : c ≠ '|' := by
      intro hceq
      exact ha (by rw [hceq]; exact List.mem_cons_self _ _)
    have ha2 : noBar a := fun hm => ha (List.mem_cons_of_mem c hm)
    rw [List.cons_append, splitBar, ih ha2]
    simp [hc]

lemma keyModel_queueKey {e : FleetEvent} (h : noBar (effPref e)) :
    keyModel (queueKey e) = effPref e := by
  unfold keyModel queueKey
  rw [splitBar_append _ h]
  rfl

lemma keyLoc_queueKey {e : FleetEvent} (hp : noBar (effPref e)) (hl : noBar (effLoc e)) :
    keyLoc (queueKey e) = effLoc e := by
  unfold keyLoc queueKey
  rw [splitBar_append _ hp, splitBar_noBar hl]
  rfl

lemma mem_pendingEventsOf {evs : List FleetEvent} {gid : Str} {e : FleetEvent} :
    e ∈ pendingEventsOf evs gid
      ↔ e ∈ evs ∧ e.groupId = gid ∧ e.type = EventType.BOOKING_UNASSIGNED := by
  unfold pendingEventsOf isPendingOf
  rw [List.mem_filter]
  simp

lemma mem_queueRowEvents {evs : List FleetEvent} {gid k : Str} {e : FleetEvent} :
    e ∈ queueRowEvents evs gid k ↔ e ∈ evs ∧ e.groupId = gid ∧
      e.type = EventType.BOOKING_UNASSIGNED ∧ effPref e = keyModel k ∧ effLoc e = keyLoc k := by
  unfold queueRowEvents inQueueRow
  rw [List.mem_filter]
  simp

lemma uqk_mem_aux : ∀ (l : List FleetEvent) (acc : List Str) (k : Str),
    (k ∈ l.foldl (fun acc e => if queueKey e ∈ acc then acc else acc ++ [queueKey e]) acc
      ↔ k ∈ acc ∨ ∃ e ∈ l, queueKey e = k) := by
  intro l
  induction l with
  | nil => simp
  | cons e l ih =>
    intro acc k
    simp only [List.foldl_cons]
    rw [ih]
    by_cases hmem : queueKey e ∈ acc
    · rw [if_pos hmem]
      constructor
      · rintro (h | ⟨e2, he2, hk⟩)
        · exact Or.inl h
        · exact Or.inr ⟨e2, List.mem_cons_of_mem _ he2, hk⟩
      · rintro (h | ⟨e2, he2, hk⟩)
        · exact Or.inl h
        · rcases List.mem_cons.1 he2 with rfl | he2
          · exact Or.inl (hk ▸ hmem)
          · exact Or.inr ⟨e2, he2, hk⟩
    · rw [if_neg hmem]
      constructor
      · rintro (h | ⟨e2, he2, hk⟩)
        · rcases List.mem_append.1 h with h | h
          · exact Or.inl h
          · simp only [List.mem_singleton] at h
            exact Or.inr ⟨e, List.mem_cons_self _ _, h.symm⟩
        · exact Or.inr ⟨e2, List.mem_cons_of_mem _ he2, hk⟩
      · rintro (h | ⟨e2, he2, hk⟩)
        · exact Or.inl (List.mem_append_left _ h)
        · rcases List.mem_cons.1 he2 with rfl | he2
          · exact Or.inl (List.mem_append_right _ (by simp [hk]))
          · exact Or.inr ⟨e2, he2, hk⟩

lemma uqk_nodup_aux : ∀ (l : List FleetEvent) (acc : List Str), acc.Nodup →
    (l.foldl (fun acc e => if queueKey e ∈ acc then acc else acc ++ [queueKey e]) acc).Nodup := by
  intro l
  induction l with
  | nil => intro acc h; exact h
  | cons e l ih =>
    intro acc h
    simp only [List.foldl_cons]
    by_cases hmem : queueKey e ∈ acc
    · rw [if_pos hmem]; exact ih acc h
    · rw [if_neg hmem]
      refine ih _ ?_
      simp [List.nodup_append, h, hmem]

lemma mem_uniqueQueueKeys {evs : List FleetEvent} {gid : Str} {k : Str} :
    k ∈ uniqueQueueKeys evs gid ↔ ∃ e ∈ pendingEventsOf evs gid, queueKey e = k := by
  unfold uniqueQueueKeys
  rw [uqk_mem_aux]
  simp

lemma nodup_uniqueQueueKeys (evs : List FleetEvent) (gid : Str) :
    (uniqueQueueKeys evs gid).Nodup :=
  uqk_nodup_aux _ [] List.nodup_nil

lemma countP_eq_one_of_nodup_mem {α : Type} [DecidableEq α] {l : List α} {a : α}
    (hnd : l.Nodup) (hmem : a ∈ l) :
    List.countP (fun x => decide (x = a)) l = 1 := by
  induction l with
  | nil => simp at hmem
  | cons b l ih =>
    rw [List.countP_cons]
    rcases List.mem_cons.1 hmem with rfl | hmem
    · have hnotin : a ∉ l := (List.nodup_cons.1 hnd).1
      have h0 : List.countP (fun x => decide (x = a)) l = 0 := by
        rw [List.countP_eq_zero]
        intro x hx
        simp only [decide_eq_true_eq]
        rintro rfl
        exact hnotin hx
      simp [h0]
    · have hne : b ≠ a := by
        rintro rfl
        exact (List.nodup_cons.1 hnd).1 hmem
      rw [ih (List.nodup_cons.1 hnd).2 hmem]
      simp [hne]

/-- C5 amended: as long as no pending event of the group has a '|' in its
effective model preference or pickup location, every pending event of the
group appears in exactly one queue row of that group (events with a
missing or empty preference or location land in the literal
"Unknown Model" / "Unknown Loc" bucket and are counted like any other);
with a '|' in a field the event can be dropped from all queue rows. -/
theorem queue_row_unique_membership (evs : List FleetEvent) (gid : Str) (e : FleetEvent)
    (he : e ∈ evs) (hg : e.groupId = gid) (ht : e.type = EventType.BOOKING_UNASSIGNED)
    (hbar : ∀ e2 ∈ evs, e2.groupId = gid → e2.type = EventType.BOOKING_UNASSIGNED →
      noBar (effPref e2) ∧ noBar (effLoc e2)) :
    List.countP (fun k => decide (e ∈ queueRowEvents evs gid k))
      (uniqueQueueKeys evs gid) = 1 := by
  obtain ⟨hep, hel⟩ := hbar e he hg ht
  have hiff : ∀ k ∈ uniqueQueueKeys evs gid,
      (e ∈ queueRowEvents evs gid k ↔ k = queueKey e) := by
    intro k hk
    obtain ⟨e2, he2, rfl⟩ := mem_uniqueQueueKeys.1 hk
    obtain ⟨he2m, he2g, he2t⟩ := mem_pendingEventsOf.1 he2
    obtain ⟨h2p, h2l⟩ := hbar e2 he2m he2g he2t
    rw [mem_queueRowEvents, keyModel_queueKey h2p, keyLoc_queueKey h2p h2l]
    constructor
    · rintro ⟨-, -, -, hp2, hl2⟩
      unfold queueKey
      rw [hp2, hl2]
    · intro hkk
      have hm := congrArg keyModel hkk
      have hl := congrArg keyLoc hkk
      rw [keyModel_queueKey h2p, keyModel_queueKey hep] at hm
      rw [keyLoc_queueKey h2p h2l, keyLoc_queueKey hep hel] at hl
      exact ⟨he, hg, ht, hm.symm, hl.symm⟩
  have hcong : List.countP (fun k => decide (e ∈ queueRowEvents evs gid k))
      (uniqueQueueKeys evs gid)
      = List.countP (fun k => decide (k = queueKey e)) (uniqueQueueKeys evs gid) := by
    apply List.countP_congr
    intro k hk
    simp only [decide_eq_true_eq]
    exact hiff k hk
  rw [hcong]
  have hmem : queueKey e ∈ uniqueQueueKeys evs gid :=
    mem_uniqueQueueKeys.2 ⟨e, mem_pendingEventsOf.2 ⟨he, hg, ht⟩, rfl⟩
  exact countP_eq_one_of_nodup_mem (nodup_uniqueQueueKeys evs gid) hmem

/-- Witness for C5 on the three-pending fixture. -/
theorem queue_row_unique_membership_witness :
    (mkPending 1 0 3 ∈ pendThree ∧ (mkPending 1 0 3).groupId = g1id ∧
      (mkPending 1 0 3).type = EventType.BOOKING_UNASSIGNED ∧
      (∀ e2 ∈ pendThree, e2.groupId = g1id → e2.type = EventType.BOOKING_UNASSIGNED →
        noBar (effPref e2) ∧ noBar (effLoc e2))) ∧
    List.countP (fun k => decide (mkPending 1 0 3 ∈ queueRowEvents pendThree g1id k))
      (uniqueQueueKeys pendThree g1id) = 1 :=
  ⟨⟨by decide, by decide, by decide, by decide⟩,
    queue_row_unique_membership pendThree g1id (mkPending 1 0 3)
      (by decide) (by decide) (by decide) (by decide)⟩

/-- C5 counterexample: a pending event whose model preference contains the
'|' delimiter ("A|B", location "C") creates the key "A|B|C", which splits
back to model "A", location "B"; the event matches no queue row at all,
so it is dropped rather than appearing in exactly one row. -/
theorem queue_delimiter_counterexample :
    qBad.type = EventType.BOOKING_UNASSIGNED ∧
    uniqueQueueKeys [qBad] g1id = ["A|B|C".data] ∧
    qBad ∉ queueRowEvents [qBad] g1id ("A|B|C".data) := by
  decide


/-! C8: dangling vehicle references. -/

/-- C8 amended: an event that is not a pending booking and whose vehicleId
matches no vehicle in the list is excluded from every vehicle row and every
queue row, and removing it from (or inserting it into) the event list, at
any position, leaves every row's key set and layout unchanged.  (A PENDING
event with a dangling vehicleId is the exception: queue rows ignore
vehicleId, so it still appears in its queue row.) -/
theorem dangling_vehicle_excluded (vehicles : List Vehicle)
    (evs1 evs2 : List FleetEvent) (e : FleetEvent) (gid k : Str)
    (hdangle : ∀ v ∈ vehicles, e.vehicleId ≠ some v.id)
    (hpend : e.type ≠ EventType.BOOKING_UNASSIGNED) :
    (∀ v ∈ vehicles, e ∉ vehicleRowEvents (evs1 ++ e :: evs2) v.id) ∧
    e ∉ queueRowEvents (evs1 ++ e :: evs2) gid k ∧
    (∀ v ∈ vehicles,
      vehicleRowLayout (evs1 ++ e :: evs2) v = vehicleRowLayout (evs1 ++ evs2) v) ∧
    uniqueQueueKeys (evs1 ++ e :: evs2) gid = uniqueQueueKeys (evs1 ++ evs2) gid ∧
    queueRowLayout (evs1 ++ e :: evs2) gid k = queueRowLayout (evs1 ++ evs2) gid k := by
  have hveq : ∀ v ∈ vehicles,
      vehicleRowEvents (evs1 ++ e :: evs2) v.id = vehicleRowEvents (evs1 ++ evs2) v.id := by
    intro v hv
    unfold vehicleRowEvents
    rw [List.filter_append, List.filter_append, List.filter_cons]
    rw [if_neg (by simp only [decide_eq_true_eq]; exact hdangle v hv)]
  have hqeq : queueRowEvents (evs1 ++ e :: evs2) gid k = queueRowEvents (evs1 ++ evs2) gid k := by
    unfold queueRowEvents
    rw [List.filter_append, List.filter_append, List.filter_cons]
    rw [if_neg (by
      simp only [inQueueRow, decide_eq_true_eq]
      rintro ⟨-, ht, -⟩
      exact hpend ht)]
  have hpeq : pendingEventsOf (evs1 ++ e :: evs2) gid = pendingEventsOf (evs1 ++ evs2) gid := by
    unfold pendingEventsOf
    rw [List.filter_append, List.filter_append, List.filter_cons]
    rw [if_neg (by
      simp only [isPendingOf, decide_eq_true_eq]
      rintro ⟨-, ht⟩
      exact hpend ht)]
  refine ⟨?_, ?_, ?_, ?_, ?_⟩
  · intro v hv hmem
    unfold vehicleRowEvents at hmem
    rw [List.mem_filter] at hmem
    exact hdangle v hv (by simpa using hmem.2)
  · intro hmem
    rw [mem_queueRowEvents] at hmem
    exact hpend hmem.2.2.1
  · intro v hv
    unfold vehicleRowLayout
    rw [hveq v hv]
  · unfold uniqueQueueKeys
    rw [hpeq]
  · unfold queueRowLayout
    rw [hqeq]

/-! C9: render order and capacities. -/

lemma pairwise_le_of_const {l : List Nat} {c : Nat} (h : ∀ x ∈ l, x = c) :
    List.Pairwise (fun a b => a ≤ b) l := by
  induction l with
  | nil => exact List.Pairwise.nil
  | cons a l ih =>
    refine List.Pairwise.cons ?_ (ih fun x hx => h x (List.mem_cons_of_mem a hx))
    intro b hb
    rw [h a (List.mem_cons_self a l), h b (List.mem_cons_of_mem a hb)]

/-- C9: within a group block the renderer emits queue rows first, then
virtual-vehicle rows, then concrete-vehicle rows (the rank sequence
0,1,2 is non-decreasing along the emitted row list); a concrete vehicle's
layout maps every event to lane 0 with no overlap resolution, while
virtual-vehicle rows and queue rows are lane-packed with unlimited
capacity. -/
theorem rows_ordered_and_concrete_single (vehicles : List Vehicle)
    (evs : List FleetEvent) (g : CarGroup) :
    List.Pairwise (fun a b => a ≤ b) ((renderedRows vehicles evs g).map rowRank) ∧
    (∀ v : Vehicle, v.isVirtual = false →
      (vehicleRowLayout evs v).eventsWithLanes
        = (vehicleRowEvents evs v.id).map (fun e => ⟨e, 0⟩)) ∧
    (∀ v : Vehicle, v.isVirtual = true →
      vehicleRowLayout evs v = computeLanes (vehicleRowEvents evs v.id) true) ∧
    (∀ k : Str, queueRowLayout evs g.id k = computeLanes (queueRowEvents evs g.id k) true) := by
  refine ⟨?_, ?_, ?_, ?_⟩
  · unfold renderedRows
    rw [List.map_append, List.map_append, List.pairwise_append]
    have hq : ∀ x ∈ ((uniqueQueueKeys evs g.id).map (RowRef.queueRow g.id)).map rowRank,
        x = 0 := by
      intro x hx
      obtain ⟨r, hr, rfl⟩ := List.mem_map.1 hx
      obtain ⟨k2, hk2, rfl⟩ := List.mem_map.1 hr
      rfl
    have hv : ∀ x ∈ (((vehiclesOfGroup vehicles g.id).filter
        (fun v => v.isVirtual)).map RowRef.vehicleRow).map rowRank, x = 1 := by
      intro x hx
      obtain ⟨r, hr, rfl⟩ := List.mem_map.1 hx
      obtain ⟨v, hv2, rfl⟩ := List.mem_map.1 hr
      have hvv := (List.mem_filter.1 hv2).2
      simp [rowRank, hvv]
    have hw : ∀ x ∈ (((vehiclesOfGroup vehicles g.id).filter
        (fun v => !v.isVirtual)).map RowRef.vehicleRow).map rowRank, x = 2 := by
      intro x hx
      obtain ⟨r, hr, rfl⟩ := List.mem_map.1 hx
      obtain ⟨v, hv2, rfl⟩ := List.mem_map.1 hr
      have hvv := (List.mem_filter.1 hv2).2
      simp only [Bool.not_eq_true'] at hvv
      simp [rowRank, hvv]
    refine ⟨?_, pairwise_le_of_const hw, ?_⟩
    · rw [List.pairwise_append]
      refine ⟨pairwise_le_of_const hq, pairwise_le_of_const hv, ?_⟩
      intro a ha b hb
      rw [hq a ha]
      exact Nat.zero_le _
    · intro a ha b hb
      rw [hw b hb]
      rcases List.mem_append.1 ha with ha | ha
      · rw [hq a ha]; omega
      · rw [hv a ha]; omega
  · intro v hv
    unfold vehicleRowLayout
    rw [hv]
    rfl
  · intro v hv
    unfold vehicleRowLayout
    rw [hv]
  · intro k
    rfl

/-- A virtual vehicle fixture for the C9 witness. -/
def vVirt : Vehicle := { id := "vv".data, groupId := g1id, isVirtual := true }

/-- A fixture group record. -/
def gEco : CarGroup := { id := g1id, name := "Economy".data }

/-- Witness for C9 on a concrete group with one queue row, one virtual and
one concrete vehicle. -/
theorem rows_ordered_and_concrete_single_witness :
    List.Pairwise (fun a b => a ≤ b)
      ((renderedRows [vVirt, vOther] (pendThree ++ [goodEv]) gEco).map rowRank) ∧
    (vehicleRowLayout (pendThree ++ [goodEv]) vOther).eventsWithLanes
      = (vehicleRowEvents (pendThree ++ [goodEv]) vOther.id).map (fun e => ⟨e, 0⟩) :=
  ⟨(rows_ordered_and_concrete_single [vVirt, vOther] (pendThree ++ [goodEv]) gEco).1,
    (rows_ordered_and_concrete_single [vVirt, vOther] (pendThree ++ [goodEv]) gEco).2.1
      vOther rfl⟩

/-- C8 counterexample: a PENDING event with a dangling vehicleId ("ghost",
not the id of any vehicle in the list) still appears, with a lane
assignment, in the layout of its queue row, so it is not excluded from
every row's layout. -/
theorem pending_dangling_in_queue_row :
    qGhost.vehicleId = some "ghost".data ∧
    vOther.id ≠ "ghost".data ∧
    (⟨qGhost, 0⟩ : EventWithLane)
      ∈ (queueRowLayout [qGhost] g1id (queueKey qGhost)).eventsWithLanes := by
  decide

/-- A non-pending (block) event with a dangling vehicle reference. -/
def eGhostBlock : FleetEvent :=
  { id := "z".data, type := EventType.BLOCK, groupId := g1id,
    vehicleId := some "ghost".data, startDate := some 0, endDate := some 10,
    modelPreference := none, pickupLocation := none }

/-- Witness for C8: a non-pending event with a dangling vehicle reference
is invisible to every row of a concrete vehicle list. -/
theorem dangling_vehicle_excluded_witness :
    ((∀ v ∈ [vOther, vVirt], eGhostBlock.vehicleId ≠ some v.id) ∧
      eGhostBlock.type ≠ EventType.BOOKING_UNASSIGNED) ∧
    ((∀ v ∈ [vOther, vVirt], eGhostBlock ∉ vehicleRowEvents ([goodEv] ++ eGhostBlock :: pendThree) v.id) ∧
    eGhostBlock ∉ queueRowEvents ([goodEv] ++ eGhostBlock :: pendThree) g1id (queueKey qGhost) ∧
    (∀ v ∈ [vOther, vVirt],
      vehicleRowLayout ([goodEv] ++ eGhostBlock :: pendThree) v
        = vehicleRowLayout ([goodEv] ++ pendThree) v) ∧
    uniqueQueueKeys ([goodEv] ++ eGhostBlock :: pendThree) g1id
      = uniqueQueueKeys ([goodEv] ++ pendThree) g1id ∧
    queueRowLayout ([goodEv] ++ eGhostBlock :: pendThree) g1id (queueKey qGhost)
      = queueRowLayout ([goodEv] ++ pendThree) g1id (queueKey qGhost)) :=
  ⟨⟨by decide, by decide⟩,
    dangling_vehicle_excluded [vOther, vVirt] [goodEv] pendThree eGhostBlock g1id
      (queueKey qGhost) (by decide) (by decide)⟩

end FleetCal
